import Mathlib

/-!
Shallow embedding of the Telegram chat-export statistics tool
(`src/main.rs`) together with proofs about its message-text model,
tokenizer and statistics aggregator.

Rust strings are modelled byte-exactly as lists of bytes (`Str`); all
length tests in the source are byte-length tests.  Callback-style
traversals (`for_each_text_segment`, `fast_tokenize`) are reified as
list-producing functions: the returned list holds, in order, exactly the
arguments the Rust code passes to its callback.  Hash maps
(`AHashMap`) are modelled as association lists with unique keys and the
`entry(..).or_insert(0) += 1` idiom as `bump`; iteration order of a hash
map is irrelevant to every statement proved here (the report sorts
before use).
-/

/-- A Rust string / string slice, byte-exactly. -/
abbrev Str := List UInt8

/-- UTF-8 encoding of one character (used to write byte-string literals). -/
def encodeChar (c : Char) : Str :=
  let n := c.toNat
  if n < 0x80 then
    [UInt8.ofNat n]
  else if n < 0x800 then
    [UInt8.ofNat (0xC0 ||| (n >>> 6)), UInt8.ofNat (0x80 ||| (n &&& 0x3F))]
  else if n < 0x10000 then
    [UInt8.ofNat (0xE0 ||| (n >>> 12)), UInt8.ofNat (0x80 ||| ((n >>> 6) &&& 0x3F)),
     UInt8.ofNat (0x80 ||| (n &&& 0x3F))]
  else
    [UInt8.ofNat (0xF0 ||| (n >>> 18)), UInt8.ofNat (0x80 ||| ((n >>> 12) &&& 0x3F)),
     UInt8.ofNat (0x80 ||| ((n >>> 6) &&& 0x3F)), UInt8.ofNat (0x80 ||| (n &&& 0x3F))]

/-- Byte-string literal: the UTF-8 bytes of a Lean string literal. -/
def strBytes (s : String) : Str := s.data.flatMap encodeChar

/-!  ## The JSON value model

`simd_json::OwnedValue` as far as the program inspects it.  The program
pattern-matches only on `String`, `Array` and `Object` and treats every
other variant (number, boolean, null, …) uniformly via `_` catch-alls,
so those collapse into the single constructor `other`. -/

inductive Json where
  | str (s : Str)
  | arr (elems : List Json)
  | obj (kvs : List (Str × Json))
  | other
deriving Repr

/-- Embeds `Object::get` — lookup of a key in a JSON object (keys are unique in
`simd_json` objects; on an association list we take the first match). -/
def getField (kvs : List (Str × Json)) (k : Str) : Option Json :=
  match kvs with
  | [] => none
  | (a, v) :: rest => if a = k then some v else getField rest k

/-- Embeds `Object::contains_key`. -/
def containsKey (kvs : List (Str × Json)) (k : Str) : Bool :=
  (getField kvs k).isSome

/-- Embeds `get_str_field` (src/main.rs:313): the field's string payload, if the
field is present and is a string. -/
def get_str_field (kvs : List (Str × Json)) (k : Str) : Option Str :=
  match getField kvs k with
  | some (Json.str s) => some s
  | _ => none

/-!  ## Text segment model -/

/-- Segments contributed by one element of an array-shaped text field:
the inner `match` of `for_each_text_segment` (src/main.rs:331-340).
A string element yields itself; an object element yields its `text`
attribute when that attribute is a string; everything else yields
nothing. -/
def elem_segments : Json → List Str
  | Json.str s => [s]
  | Json.obj kvs =>
      match getField kvs (strBytes "text") with
      | some (Json.str t) => [t]
      | _ => []
  | _ => []

/-- Embeds `for_each_text_segment` (src/main.rs:324-345) with its callback
reified: the list of string slices passed to the callback, in order. -/
def text_segments : Json → List Str
  | Json.str s => [s]
  | Json.arr elems => elems.flatMap elem_segments
  | _ => []

/-- Embeds `write_text_value` (src/main.rs:348): the bytes written for a text
field are the concatenation of its segments. -/
def text_concat (v : Json) : Str := (text_segments v).flatten

/-- Embeds `text_is_empty` (src/main.rs:360-374): true when the traversal
yields no segment at all, or every yielded segment is empty.  The
source computes this with `any`/`all_empty` flags over the traversal;
on the reified segment list that is exactly `all isEmpty`. -/
def text_is_empty (v : Json) : Bool :=
  (text_segments v).all (fun s => s.isEmpty)

/-- Embeds `str::contains(pat)` — `pat` occurs as a contiguous substring. -/
def contains_sub (s pat : Str) : Bool :=
  match s with
  | [] => pat.isEmpty
  | b :: rest => pat.isPrefixOf (b :: rest) || contains_sub rest pat

/-- Embeds `text_has_link` (src/main.rs:376-388): some segment contains
`http://` or `https://` as a substring. -/
def text_has_link (v : Json) : Bool :=
  (text_segments v).any
    (fun s => contains_sub s (strBytes "http://") || contains_sub s (strBytes "https://"))

/-- Embeds `get_poll_question` (src/main.rs:390-400). -/
def get_poll_question (poll : Json) : Option Str :=
  match poll with
  | Json.obj kvs => get_str_field kvs (strBytes "question")
  | _ => none

/-!  ## Tokenizer -/

/-- Embeds `is_ascii_ws` (src/main.rs:437): the four whitespace bytes skipped
between tokens — space, newline, tab, carriage return. -/
def is_ascii_ws (b : UInt8) : Bool :=
  b == 32 || b == 10 || b == 9 || b == 13

/-- The three bytes `memchr3(b' ', b'\n', b'\t', ..)` searches for to
end a token (src/main.rs:426) — note: no carriage return. -/
def is_tok_sep (b : UInt8) : Bool :=
  b == 32 || b == 10 || b == 9

lemma dropWhile_length_le (p : UInt8 → Bool) (l : Str) :
    (l.dropWhile p).length ≤ l.length := by
  induction l with
  | nil => simp [List.dropWhile]
  | cons b rest ih =>
    simp only [List.dropWhile]
    cases p b <;> simp <;> omega

/-- Embeds `fast_tokenize` (src/main.rs:408-434) with its callback reified:
skip a run of `is_ascii_ws` bytes, then the token extends from the
current byte to the next `memchr3` hit (space, newline or tab) or the
end of the input.  The current byte is not whitespace, hence not a
separator, so `&text[start..end]` is the current byte followed by the
separator-free run of the remainder. -/
def fast_tokenize : Str → List Str
  | [] => []
  | b :: rest =>
    if is_ascii_ws b then fast_tokenize rest
    else
      (b :: rest.takeWhile (fun x => !is_tok_sep x)) ::
        fast_tokenize (rest.dropWhile (fun x => !is_tok_sep x))
termination_by s => s.length
decreasing_by
  · simp
  · have := dropWhile_length_le (fun x => !is_tok_sep x) rest
    simp at this ⊢
    omega

/-- Embeds `is_ascii_word_char` (src/main.rs:471): ASCII alphanumeric or
`#`, `@`, `_`. -/
def is_ascii_word_char (b : UInt8) : Bool :=
  (65 ≤ b && b ≤ 90) || (97 ≤ b && b ≤ 122) || (48 ≤ b && b ≤ 57) ||
  b == 35 || b == 64 || b == 95

/-- A byte both trim loops of `trim_ascii_punct` remove: an ASCII byte
(`b < 0x80`) that is not a word character. -/
def is_trimmable (b : UInt8) : Bool :=
  b < 128 && !is_ascii_word_char b

/-- Embeds `trim_ascii_punct` (src/main.rs:442-468): strip trimmable bytes
from the left, then from the right, of the byte slice. -/
def trim_ascii_punct (s : Str) : Str :=
  (((s.dropWhile is_trimmable).reverse).dropWhile is_trimmable).reverse

/-!  ## The statistics aggregate -/

/-- Ordered-map view of an `AHashMap<String, usize>`. -/
abbrev CountMap := List (Str × Nat)

/-- Ordered-map view of an `AHashMap<String, AHashMap<String, usize>>`. -/
abbrev NestedMap := List (Str × CountMap)

/-- Embeds `map.entry(k).or_insert(0) += 1`: increment the entry for `k`,
inserting it with count 1 when absent. -/
def bump (m : CountMap) (k : Str) : CountMap :=
  match m with
  | [] => [(k, 1)]
  | (a, c) :: rest => if a = k then (a, c + 1) :: rest else (a, c) :: bump rest k

/-- The count stored for key `k` (0 when absent). -/
def lookupD (m : CountMap) (k : Str) : Nat :=
  match m with
  | [] => 0
  | (a, c) :: rest => if a = k then c else lookupD rest k

/-- Embeds `map.entry(a).or_default()` followed by
`inner.entry(k).or_insert(0) += 1` on the nested map. -/
def bump_nested (m : NestedMap) (a k : Str) : NestedMap :=
  match m with
  | [] => [(a, bump [] k)]
  | (b, mm) :: rest =>
      if b = a then (b, bump mm k) :: rest else (b, mm) :: bump_nested rest a k

/-- The inner map stored for author `a` (empty when absent). -/
def lookupN (m : NestedMap) (a : Str) : CountMap :=
  match m with
  | [] => []
  | (b, mm) :: rest => if b = a then mm else lookupN rest a

/-- The `Stats` aggregate (src/main.rs:46-77).  `chat_name` is set once
from the document root and irrelevant to the per-message fold, so it is
omitted; the two histograms are length-24 and length-32 lists of
counters. -/
structure Stats where
  total_messages : Nat
  messages_with_any_media : Nat
  photo_messages : Nat
  video_messages : Nat
  voice_messages : Nat
  audio_messages : Nat
  gif_messages : Nat
  sticker_messages : Nat
  file_messages : Nat
  poll_messages : Nat
  forwarded_messages : Nat
  link_messages : Nat
  per_author : CountMap
  word_freq : CountMap
  word_freq_per_author : NestedMap
  hour_hist : List Nat
  day_hist : List Nat
  spam_map : NestedMap
deriving Repr, DecidableEq

/-- Embeds `Stats::default()`. -/
def Stats.empty : Stats where
  total_messages := 0
  messages_with_any_media := 0
  photo_messages := 0
  video_messages := 0
  voice_messages := 0
  audio_messages := 0
  gif_messages := 0
  sticker_messages := 0
  file_messages := 0
  poll_messages := 0
  forwarded_messages := 0
  link_messages := 0
  per_author := []
  word_freq := []
  word_freq_per_author := []
  hour_hist := List.replicate 24 0
  day_hist := List.replicate 32 0
  spam_map := []

/-!  ## Word statistics and spam tracking -/

/-- ASCII case folding on one byte; stands in for the per-character
effect of `str::to_lowercase`.  (The Rust call is Unicode-aware; no
statement below depends on how non-ASCII bytes are folded, only on the
key being the same in every map it is inserted into.) -/
def lower_byte (b : UInt8) : UInt8 :=
  if 65 ≤ b && b ≤ 90 then b + 32 else b

/-- Model of `str::to_lowercase` (see `lower_byte`). -/
def lowercase (s : Str) : Str := s.map lower_byte

/-- The body of the token callback in `update_word_stats`
(src/main.rs:483-504): trim the raw token, drop it when the trimmed
form is shorter than 3 bytes, begins with a link prefix, or lowercases
to the empty string; otherwise count its lowercased form in the global
and the per-author frequency maps. -/
def process_token (s : Stats) (author : Str) (raw : Str) : Stats :=
  let token := trim_ascii_punct raw
  if token.length < 3 then s
  else if (strBytes "http://").isPrefixOf token
       || (strBytes "https://").isPrefixOf token then s
  else
    let token_lower := lowercase token
    if token_lower.isEmpty then s
    else
      { s with
        word_freq := bump s.word_freq token_lower,
        word_freq_per_author := bump_nested s.word_freq_per_author author token_lower }

/-- Embeds `update_word_stats` (src/main.rs:481-507): run the tokenizer over
every text segment and fold each raw token through `process_token`. -/
def update_word_stats (s : Stats) (author : Str) (text_val : Json) : Stats :=
  (text_segments text_val).foldl
    (fun s seg => (fast_tokenize seg).foldl (fun s raw => process_token s author raw) s)
    s

/-- Embeds `build_full_text` (src/main.rs:510-516): concatenate all segments. -/
def build_full_text (v : Json) : Str := (text_segments v).flatten

/-- A byte removed by `str::trim`.  Only the ASCII whitespace bytes are
represented (multi-byte Unicode whitespace is not modelled; no
statement below depends on which edge bytes `trim` removes). -/
def is_rust_ws (b : UInt8) : Bool :=
  b == 32 || (9 ≤ b && b ≤ 13)

/-- Model of `str::trim` (see `is_rust_ws`). -/
def rust_trim (s : Str) : Str :=
  ((s.dropWhile is_rust_ws).reverse.dropWhile is_rust_ws).reverse

/-- Embeds `track_spam` (src/main.rs:518-527): normalize the whole text
(trim + lowercase); when the result is at least 5 bytes long, bump the
per-author spam map keyed by that normalized text. -/
def track_spam (s : Stats) (author : Str) (text_val : Json) : Stats :=
  let full := build_full_text text_val
  let norm := lowercase (rust_trim full)
  if norm.length < 5 then s
  else { s with spam_map := bump_nested s.spam_map author norm }

/-!  ## Date parsing

Model of `chrono::NaiveDateTime::parse_from_str(s, "%Y-%m-%dT%H:%M:%S")`,
following chrono 0.4's parser: before each numeric field the input is
trimmed of leading Unicode whitespace; an unsigned field of width `w`
consumes one to `w` leading ASCII digits (maximal munch); the year is
signed — with an explicit `+`/`-` it consumes any number of digits,
without a sign at most four; literal separators must match exactly with
no trimming; the whole input must be consumed.  The parsed values then
pass chrono's validation: year in `NaiveDate`'s range
`-262144..=262143`, calendar-valid month/day (proleptic Gregorian),
hour ≤ 23, minute ≤ 59, second ≤ 60 (chrono accepts `60` and represents
it as a leap second at `59`; the program only reads hour and day, which
that mapping does not affect). -/

structure DateT where
  year : Int
  month : Nat
  day : Nat
  hour : Nat
  minute : Nat
  second : Nat
deriving Repr, DecidableEq

def is_digit (b : UInt8) : Bool := 48 ≤ b && b ≤ 57

def digit (b : UInt8) : Nat := b.toNat - 48

/-- Embeds `str::trim_start` as chrono applies it before a numeric
field: strip every leading Unicode whitespace character, by its UTF-8
bytes (the set of `char::is_whitespace`: U+0009–U+000D, U+0020, U+0085,
U+00A0, U+1680, U+2000–U+200A, U+2028, U+2029, U+202F, U+205F,
U+3000). -/
def skip_uws : Str → Str
  | 9 :: r => skip_uws r
  | 10 :: r => skip_uws r
  | 11 :: r => skip_uws r
  | 12 :: r => skip_uws r
  | 13 :: r => skip_uws r
  | 32 :: r => skip_uws r
  | 0xC2 :: 0x85 :: r => skip_uws r
  | 0xC2 :: 0xA0 :: r => skip_uws r
  | 0xE1 :: 0x9A :: 0x80 :: r => skip_uws r
  | 0xE2 :: 0x80 :: c :: r =>
      if (0x80 ≤ c && c ≤ 0x8A) || c == 0xA8 || c == 0xA9 || c == 0xAF then skip_uws r
      else 0xE2 :: 0x80 :: c :: r
  | 0xE2 :: 0x81 :: 0x9F :: r => skip_uws r
  | 0xE3 :: 0x80 :: 0x80 :: r => skip_uws r
  | s => s

/-- Take at most `max` leading ASCII digits (maximal munch): the digits
taken and the rest.  Embeds chrono's `scan::number` digit loop. -/
def digits_prefix : Nat → Str → Str × Str
  | 0, s => ([], s)
  | _ + 1, [] => ([], [])
  | max + 1, b :: rest =>
    if is_digit b then
      let p := digits_prefix max rest
      (b :: p.1, p.2)
    else ([], b :: rest)

def nat_of_digits (ds : Str) : Nat :=
  ds.foldl (fun acc b => acc * 10 + digit b) 0

/-- Embeds chrono's `%Y` field: trim leading whitespace; with an
explicit sign, any number of digits (at least one); without one, one to
four digits.  (Chrono checks `i64`/`i32` overflow while scanning; an
overflowing year also fails the range check below, so the outcome is
the same.) -/
def parse_year (s : Str) : Option (Int × Str) :=
  match skip_uws s with
  | 45 :: rest =>
    let p := digits_prefix rest.length rest
    if p.1.isEmpty then none else some (-(nat_of_digits p.1 : Int), p.2)
  | 43 :: rest =>
    let p := digits_prefix rest.length rest
    if p.1.isEmpty then none else some ((nat_of_digits p.1 : Int), p.2)
  | t =>
    let p := digits_prefix 4 t
    if p.1.isEmpty then none else some ((nat_of_digits p.1 : Int), p.2)

/-- Embeds an unsigned width-2 numeric field (`%m`, `%d`, `%H`, `%M`,
`%S`): trim leading whitespace, then one or two digits. -/
def parse_num2 (s : Str) : Option (Nat × Str) :=
  let p := digits_prefix 2 (skip_uws s)
  if p.1.isEmpty then none else some (nat_of_digits p.1, p.2)

/-- Embeds a literal format item: the next byte must match exactly (no
trimming before literals). -/
def expect_byte (c : UInt8) (s : Str) : Option Str :=
  match s with
  | b :: rest => if b = c then some rest else none
  | [] => none

/-- The six numeric fields and five literal separators of
`%Y-%m-%dT%H:%M:%S`, in order; returns the values and the unconsumed
remainder. -/
def parse_fields (s : Str) :
    Option ((Int × Nat × Nat × Nat × Nat × Nat) × Str) := do
  let (year, s) ← parse_year s
  let s ← expect_byte 45 s
  let (month, s) ← parse_num2 s
  let s ← expect_byte 45 s
  let (day, s) ← parse_num2 s
  let s ← expect_byte 84 s
  let (hour, s) ← parse_num2 s
  let s ← expect_byte 58 s
  let (minute, s) ← parse_num2 s
  let s ← expect_byte 58 s
  let (second, s) ← parse_num2 s
  return ((year, month, day, hour, minute, second), s)

/-- Proleptic Gregorian leap year, for any year (chrono's rule). -/
def is_leap (y : Int) : Bool := (y % 4 == 0 && y % 100 != 0) || y % 400 == 0

def days_in_month (y : Int) (m : Nat) : Nat :=
  match m with
  | 1 => 31
  | 2 => if is_leap y then 29 else 28
  | 3 => 31
  | 4 => 30
  | 5 => 31
  | 6 => 30
  | 7 => 31
  | 8 => 31
  | 9 => 30
  | 10 => 31
  | 11 => 30
  | 12 => 31
  | _ => 0

/-- Embeds `NaiveDateTime::parse_from_str(s, "%Y-%m-%dT%H:%M:%S")` (see
the section comment): parse the fields, require the input consumed, and
apply chrono's range and calendar validation. -/
def parse_date (s : Str) : Option DateT :=
  match parse_fields s with
  | none => none
  | some ((y, mo, d, h, mi, se), rest) =>
    if rest.isEmpty &&
       (-262144 ≤ y && y ≤ 262143) &&
       (1 ≤ mo && mo ≤ 12) && (1 ≤ d && d ≤ days_in_month y mo) &&
       h ≤ 23 && mi ≤ 59 && se ≤ 60 then
      some ⟨y, mo, d, h, mi, se⟩
    else none

/-!  ## The per-message fold (the body of the loop in `run`,
src/main.rs:164-304).  The transcript output of a message is returned
as the byte string the loop writes for it. -/

/-- Lines 175-180: count the message and its author. -/
def author_step (name : Str) (s : Stats) : Stats :=
  { s with
    total_messages := s.total_messages + 1,
    per_author := bump s.per_author name }

/-- Lines 182-186: a message is forwarded when either forwarded-from
field is present, whatever its value. -/
def forwarded_step (kvs : List (Str × Json)) (s : Stats) : Stats :=
  if containsKey kvs (strBytes "forwarded_from")
     || containsKey kvs (strBytes "forwarded_from_id") then
    { s with forwarded_messages := s.forwarded_messages + 1 }
  else s

/-- Lines 188-204: only under `verbose`, and only when the `date` field
is a string parsing against the fixed format, bump the hour and
day-of-month histograms (each behind its own bound check). -/
def date_step (verbose : Bool) (kvs : List (Str × Json)) (s : Stats) : Stats :=
  if verbose then
    match getField kvs (strBytes "date") with
    | some (Json.str d) =>
      match parse_date d with
      | some dt =>
        let s1 :=
          if dt.hour < 24 then
            { s with hour_hist := s.hour_hist.set dt.hour (s.hour_hist.getD dt.hour 0 + 1) }
          else s
        if dt.day < s1.day_hist.length then
          { s1 with day_hist := s1.day_hist.set dt.day (s1.day_hist.getD dt.day 0 + 1) }
        else s1
      | none => s
    | _ => s
  else s

/-- Lines 213-242: the text block.  Returns the new stats, the bytes
written for the text portion, and the `has_any_text` flag. -/
def text_step (verbose : Bool) (name : Str) (kvs : List (Str × Json)) (s : Stats) :
    Stats × Str × Bool :=
  match getField kvs (strBytes "text") with
  | some text_val =>
    if verbose then
      if !text_is_empty text_val then
        let s := if text_has_link text_val then
                   { s with link_messages := s.link_messages + 1 } else s
        let s := update_word_stats s name text_val
        let s := track_spam s name text_val
        (s, text_concat text_val, true)
      else (s, [], false)
    else
      if !text_is_empty text_val then
        let s := if text_has_link text_val then
                   { s with link_messages := s.link_messages + 1 } else s
        (s, text_concat text_val, true)
      else (s, [], false)
  | none => (s, [], false)

/-- Lines 244-253: when no text was written and the message has a poll
with a string question, the transcript shows the question instead. -/
def poll_fallback (kvs : List (Str × Json)) : Str :=
  match getField kvs (strBytes "poll") with
  | some poll_val =>
    match get_poll_question poll_val with
    | some q => strBytes "[опрос: " ++ q ++ strBytes "]"
    | none => []
  | none => []

/-- Lines 258-261: the photo counter. -/
def photo_step (kvs : List (Str × Json)) (s : Stats) : Stats :=
  if containsKey kvs (strBytes "photo") then
    { s with photo_messages := s.photo_messages + 1 }
  else s

/-- Lines 263-287: the `media_type` match and its five counters. -/
def media_type_step (kvs : List (Str × Json)) (s : Stats) : Stats :=
  match getField kvs (strBytes "media_type") with
  | some (Json.str mt) =>
    if mt = strBytes "voice_message" then
      { s with voice_messages := s.voice_messages + 1 }
    else if mt = strBytes "video_file" then
      { s with video_messages := s.video_messages + 1 }
    else if mt = strBytes "audio_file" then
      { s with audio_messages := s.audio_messages + 1 }
    else if mt = strBytes "animation" then
      { s with gif_messages := s.gif_messages + 1 }
    else if mt = strBytes "sticker" then
      { s with sticker_messages := s.sticker_messages + 1 }
    else s
  | _ => s

/-- Lines 289-292: the bare-file counter — a `file` marker with no
`media_type` key at all. -/
def file_step (kvs : List (Str × Json)) (s : Stats) : Stats :=
  if containsKey kvs (strBytes "file") && !containsKey kvs (strBytes "media_type") then
    { s with file_messages := s.file_messages + 1 }
  else s

/-- Lines 294-297: the poll counter. -/
def poll_step (kvs : List (Str × Json)) (s : Stats) : Stats :=
  if containsKey kvs (strBytes "poll") then
    { s with poll_messages := s.poll_messages + 1 }
  else s

/-- The `has_any_media` flag (src/main.rs:256-301): the source sets it
to `true` in exactly the branches that bump a media counter, so after
the four blocks it holds iff one of the four conditions held. -/
def has_media_flag (kvs : List (Str × Json)) : Bool :=
  containsKey kvs (strBytes "photo") ||
  (match getField kvs (strBytes "media_type") with
   | some (Json.str mt) =>
       mt = strBytes "voice_message" || mt = strBytes "video_file" ||
       mt = strBytes "audio_file" || mt = strBytes "animation" ||
       mt = strBytes "sticker"
   | _ => false) ||
  (containsKey kvs (strBytes "file") && !containsKey kvs (strBytes "media_type")) ||
  containsKey kvs (strBytes "poll")

/-- Lines 255-301: the four media-counter blocks in source order,
followed by the any-media counter. -/
def media_step (kvs : List (Str × Json)) (s : Stats) : Stats :=
  let t := poll_step kvs (file_step kvs (media_type_step kvs (photo_step kvs s)))
  if has_media_flag kvs then
    { t with messages_with_any_media := t.messages_with_any_media + 1 }
  else t

/-- Whether a JSON array element is a qualifying message: an object
whose `type` field is the string `message` (src/main.rs:165-173,
`unwrap_or("")` makes a missing or non-string type unequal). -/
def is_message (kvs : List (Str × Json)) : Bool :=
  (get_str_field kvs (strBytes "type")).getD [] = strBytes "message"

/-- One iteration of the message loop (src/main.rs:164-304): the
updated stats and, for a qualifying message, the transcript line
written for it. -/
def process_message (verbose : Bool) (s : Stats) (msg : Json) : Stats × Option Str :=
  match msg with
  | Json.obj kvs =>
    if is_message kvs then
      let name := (get_str_field kvs (strBytes "from")).getD (strBytes "Unknown")
      let from_id := (get_str_field kvs (strBytes "from_id")).getD (strBytes "no_id")
      let s := author_step name s
      let s := forwarded_step kvs s
      let s := date_step verbose kvs s
      let r := text_step verbose name kvs s
      let body := if r.2.2 then r.2.1 else poll_fallback kvs
      let s := media_step kvs r.1
      (s, some (name ++ strBytes "(" ++ from_id ++ strBytes "): " ++ body ++ strBytes "\n"))
    else (s, none)
  | _ => (s, none)

/-- The whole message loop: fold every element of the `messages` array
through `process_message`, starting from `Stats::default()`. -/
def run_messages (verbose : Bool) (msgs : List Json) : Stats :=
  msgs.foldl (fun s m => (process_message verbose s m).1) Stats.empty

/-!  ## Report side (`write_stats`, src/main.rs:543-658) -/

/-- One insertion step of sorting a `(key, count)` list by count,
descending (the effect of `sort_by(|a, b| b.1.cmp(a.1))`). -/
def insert_desc (x : Str × Nat) : List (Str × Nat) → List (Str × Nat)
  | [] => [x]
  | y :: ys => if y.2 < x.2 then x :: y :: ys else y :: insert_desc x ys

/-- Sorting by count, descending. -/
def sort_desc (l : List (Str × Nat)) : List (Str × Nat) :=
  l.foldr insert_desc []

/-- The author ranking of the report (src/main.rs:574-575): the
`per_author` entries sorted by message count, descending. -/
def ranked_authors (s : Stats) : List (Str × Nat) :=
  sort_desc s.per_author

/-- The percentage printed for one author (src/main.rs:577-581), with
`f64` modelled as `ℚ`. -/
def author_percent (s : Stats) (count : Nat) : ℚ :=
  if 0 < s.total_messages then (count : ℚ) / (s.total_messages : ℚ) * 100 else 0

/-- The `extra` accumulation for one author's spam entries
(src/main.rs:641-646). -/
def spam_extra (msgs : CountMap) : Nat :=
  msgs.foldl (fun acc p => if 1 < p.2 then acc + (p.2 - 1) else acc) 0

/-- The candidate-spammer list before sorting (src/main.rs:639-650):
authors whose `extra` is positive, with their score, in map order. -/
def spam_scores (m : NestedMap) : List (Str × Nat) :=
  m.filterMap (fun e => if 0 < spam_extra e.2 then some (e.1, spam_extra e.2) else none)

/-- The printed spammer list (src/main.rs:651-654): sorted by score
descending, first ten entries. -/
def spam_top (m : NestedMap) : List (Str × Nat) :=
  (sort_desc (spam_scores m)).take 10

/-!  ## C1 — the segment traversal -/

/-- C1: a bare-string text field yields exactly one segment, the whole
string (also when empty); an array text field yields, in document
order, one segment per string element (verbatim) and one per object
element with a string `text` attribute (that attribute, verbatim);
object elements without a string `text` attribute, nested arrays and
all other element types yield no segment. -/
theorem segment_traversal_spec :
    (∀ s : Str, text_segments (Json.str s) = [s]) ∧
    (∀ elems : List Json, text_segments (Json.arr elems) = elems.flatMap elem_segments) ∧
    (∀ s : Str, elem_segments (Json.str s) = [s]) ∧
    (∀ kvs t, getField kvs (strBytes "text") = some (Json.str t) →
        elem_segments (Json.obj kvs) = [t]) ∧
    (∀ kvs, (∀ t, getField kvs (strBytes "text") ≠ some (Json.str t)) →
        elem_segments (Json.obj kvs) = []) ∧
    (∀ elems, elem_segments (Json.arr elems) = []) ∧
    elem_segments Json.other = [] := by
  refine ⟨fun s => rfl, fun elems => rfl, fun s => rfl, ?_, ?_, fun elems => rfl, rfl⟩
  · intro kvs t h
    simp [elem_segments, h]
  · intro kvs h
    cases hg : getField kvs (strBytes "text") with
    | none => simp [elem_segments, hg]
    | some v =>
      cases v with
      | str t => exact absurd hg (h t)
      | arr es => simp [elem_segments, hg]
      | obj kv => simp [elem_segments, hg]
      | other => simp [elem_segments, hg]

/-- Witness for C1 at concrete inputs, covering both hypotheses and the
empty-string segment. -/
theorem segment_traversal_spec_witness :
    text_segments (Json.str []) = [[]] ∧
    elem_segments (Json.obj [(strBytes "text", Json.str (strBytes "hi"))])
      = [strBytes "hi"] ∧
    elem_segments (Json.obj [(strBytes "text", Json.other)]) = [] := by
  refine ⟨segment_traversal_spec.1 [], ?_, ?_⟩
  · exact segment_traversal_spec.2.2.2.1 _ _ (by simp [getField])
  · refine segment_traversal_spec.2.2.2.2.1 _ (fun t h => ?_)
    rw [show getField [(strBytes "text", Json.other)] (strBytes "text")
          = some Json.other from by simp [getField]] at h
    simp at h

/-!  ## C9 — idempotence of edge trimming -/

lemma dropWhile_idem (p : UInt8 → Bool) (l : Str) :
    (l.dropWhile p).dropWhile p = l.dropWhile p := by
  induction l with
  | nil => simp
  | cons b rest ih =>
    by_cases hb : p b
    · simpa [List.dropWhile, hb] using ih
    · simp [List.dropWhile, hb]

lemma head_dropWhile_false (p : UInt8 → Bool) (l : Str) (b : UInt8)
    (h : (l.dropWhile p).head? = some b) : p b = false := by
  induction l with
  | nil => simp at h
  | cons c rest ih =>
    by_cases hc : p c
    · exact ih (by simpa [List.dropWhile, hc] using h)
    · simp [List.dropWhile, hc] at h
      subst h
      simpa using hc

lemma dropWhile_eq_self_of_head (p : UInt8 → Bool) (l : Str)
    (h : ∀ b, l.head? = some b → p b = false) : l.dropWhile p = l := by
  cases l with
  | nil => simp
  | cons b rest => simp [List.dropWhile, h b rfl]

/-- Lemma: `dropWhile` returns a suffix, so a nonempty result has the same
last element as the input. -/
lemma getLast?_dropWhile (p : UInt8 → Bool) (l : Str)
    (h : l.dropWhile p ≠ []) : (l.dropWhile p).getLast? = l.getLast? := by
  induction l with
  | nil => simp at h
  | cons b rest ih =>
    by_cases hb : p b
    · have hne : rest.dropWhile p ≠ [] := by
        simpa [List.dropWhile, hb] using h
      have hrest : rest ≠ [] := by
        intro hr
        subst hr
        simp at hne
      rw [List.dropWhile_cons_of_pos hb, ih hne]
      cases rest with
      | nil => exact absurd rfl hrest
      | cons c t => exact (List.getLast?_cons_cons).symm
    · simp [List.dropWhile, hb]

/-- C9: `trim_ascii_punct` is idempotent — trimming an already trimmed
token changes nothing. -/
theorem trim_ascii_punct_idem (s : Str) :
    trim_ascii_punct (trim_ascii_punct s) = trim_ascii_punct s := by
  unfold trim_ascii_punct
  set p := is_trimmable with hp
  set L := s.dropWhile p with hL
  set v := L.reverse.dropWhile p with hv
  have step1 : v.reverse.dropWhile p = v.reverse := by
    cases hh : v.reverse.head? with
    | none =>
      have : v.reverse = [] := by
        cases hvr : v.reverse with
        | nil => rfl
        | cons b t => rw [hvr] at hh; simp at hh
      simp [this]
    | some b =>
      refine dropWhile_eq_self_of_head p _ (fun c hc => ?_)
      rw [hh] at hc
      cases hc
      have hvne : v ≠ [] := by
        intro h0
        rw [h0] at hh
        simp at hh
      have h1 : v.reverse.head? = v.getLast? := List.head?_reverse v
      have h2 : v.getLast? = L.reverse.getLast? := getLast?_dropWhile p L.reverse hvne
      have h3 : L.reverse.getLast? = L.head? := List.getLast?_reverse L
      have : L.head? = some b := by rw [← h3, ← h2, ← h1, hh]
      exact head_dropWhile_false p s b this
  rw [step1, List.reverse_reverse, dropWhile_idem]

/-!  ## C2 — the tokenizer's split -/

/-- Split a byte string at every byte satisfying `sep`, keeping empty
runs: the list of (possibly empty) maximal `sep`-free runs between
separator bytes. -/
def chunks (sep : UInt8 → Bool) : Str → List Str
  | [] => [[]]
  | b :: rest =>
    if sep b then [] :: chunks sep rest
    else
      match chunks sep rest with
      | c :: cs => (b :: c) :: cs
      | [] => [[b]]

/-- What the specification says the tokenizer yields: the maximal runs
of bytes containing none of the four ASCII whitespace bytes, in order,
with no empty run. -/
def ws_tokens_spec (s : Str) : List Str :=
  (chunks is_ascii_ws s).filter (fun c => !c.isEmpty)

/-- What the code actually yields (proved below): the maximal runs free
of the three `memchr3` bytes (space, newline, tab), each with its
leading carriage returns removed, empty results dropped. -/
def cr_tokens_spec (s : Str) : List Str :=
  ((chunks is_tok_sep s).map (fun c => c.dropWhile (fun b => b == 13))).filter
    (fun c => !c.isEmpty)

lemma chunks_ne_nil (sep : UInt8 → Bool) (s : Str) : chunks sep s ≠ [] := by
  cases s with
  | nil => simp [chunks]
  | cons b rest =>
    simp only [chunks]
    split
    · simp
    · split <;> simp

lemma chunks_decomp (sep : UInt8 → Bool) (s : Str) :
    chunks sep s =
      s.takeWhile (fun x => !sep x) ::
        (match s.dropWhile (fun x => !sep x) with
         | [] => []
         | _ :: r => chunks sep r) := by
  induction s with
  | nil => simp [chunks]
  | cons b rest ih =>
    by_cases hb : sep b
    · simp [chunks, hb, List.takeWhile_cons, List.dropWhile_cons]
    · simp only [chunks, hb, if_false, List.takeWhile_cons, List.dropWhile_cons]
      rw [ih]
      simp [hb]
lemma ws_byte_cases (b : UInt8) (hb : is_ascii_ws b = true)
    (hs : is_tok_sep b = false) : b = 13 := by
  have h1 : ((b = 32 ∨ b = 10) ∨ b = 9) ∨ b = 13 := by
    simpa [is_ascii_ws] using hb
  have h2 : ¬((b = 32 ∨ b = 10) ∨ b = 9) := by
    simpa [is_tok_sep] using hs
  tauto

lemma not_ws_sep (b : UInt8) (hb : ¬is_ascii_ws b = true) :
    is_tok_sep b = false ∧ (b == 13) = false := by
  have h1 : ¬(((b = 32 ∨ b = 10) ∨ b = 9) ∨ b = 13) := by
    simpa [is_ascii_ws] using hb
  push_neg at h1
  constructor
  · simp [is_tok_sep]
    tauto
  · simp [h1.2]

lemma sep_is_ws (d : UInt8) (hd : is_tok_sep d = true) : is_ascii_ws d = true := by
  have h1 : (d = 32 ∨ d = 10) ∨ d = 9 := by simpa [is_tok_sep] using hd
  simp [is_ascii_ws]
  tauto

lemma cr_tokens_spec_skip (b : UInt8) (rest : Str) (hb : is_ascii_ws b = true) :
    cr_tokens_spec (b :: rest) = cr_tokens_spec rest := by
  by_cases hs : is_tok_sep b
  · simp [cr_tokens_spec, chunks, hs]
  · have hb13 : b = 13 := ws_byte_cases b hb (by simpa using hs)
    obtain ⟨c, cs, hc⟩ : ∃ c cs, chunks is_tok_sep rest = c :: cs := by
      cases h : chunks is_tok_sep rest with
      | nil => exact absurd h (chunks_ne_nil _ _)
      | cons c cs => exact ⟨c, cs, rfl⟩
    have hexp : chunks is_tok_sep (b :: rest) = (b :: c) :: cs := by
      simp only [chunks]
      rw [if_neg hs, hc]
    rw [cr_tokens_spec, hexp, cr_tokens_spec, hc]
    subst hb13
    simp [List.dropWhile]

lemma fast_tokenize_eq_cr_aux :
    ∀ n (s : Str), s.length ≤ n → fast_tokenize s = cr_tokens_spec s := by
  intro n
  induction n with
  | zero =>
    intro s hs
    have h0 : s = [] := by
      cases s with
      | nil => rfl
      | cons b t => simp at hs
    subst h0
    simp [fast_tokenize, cr_tokens_spec, chunks]
  | succ n ih =>
    intro s hs
    cases s with
    | nil => simp [fast_tokenize, cr_tokens_spec, chunks]
    | cons b rest =>
      by_cases hb : is_ascii_ws b
      · rw [show fast_tokenize (b :: rest) = fast_tokenize rest by
              simp [fast_tokenize, hb],
            cr_tokens_spec_skip b rest hb]
        refine ih rest ?_
        simp at hs
        omega
      · obtain ⟨hsep, hb13⟩ := not_ws_sep b hb
        rw [show fast_tokenize (b :: rest) =
              (b :: rest.takeWhile (fun x => !is_tok_sep x)) ::
                fast_tokenize (rest.dropWhile (fun x => !is_tok_sep x)) by
              simp [fast_tokenize, hb]]
        obtain ⟨c, cs, hc⟩ : ∃ c cs, chunks is_tok_sep rest = c :: cs := by
          cases h : chunks is_tok_sep rest with
          | nil => exact absurd h (chunks_ne_nil _ _)
          | cons c cs => exact ⟨c, cs, rfl⟩
        have hexp : chunks is_tok_sep (b :: rest) = (b :: c) :: cs := by
          simp only [chunks]
          rw [if_neg (by simp [hsep]), hc]
        have hdec := chunks_decomp is_tok_sep rest
        rw [hc] at hdec
        injection hdec with hcval hcs
        rw [cr_tokens_spec, hexp]
        simp only [List.map_cons, List.filter_cons]
        rw [List.dropWhile_cons_of_neg (by simp [hb13])]
        simp only [List.isEmpty_cons, Bool.not_false, if_true]
        congr 1
        · rw [hcval]
        · cases hd : rest.dropWhile (fun x => !is_tok_sep x) with
          | nil =>
            rw [hd] at hcs
            simp only [hcs]
            simp [fast_tokenize]
          | cons d r =>
            rw [hd] at hcs
            simp only [hcs]
            have hdsep : is_tok_sep d = true := by
              have hh := head_dropWhile_false (fun x => !is_tok_sep x) rest d
                (by rw [hd]; rfl)
              simpa using hh
            rw [show fast_tokenize (d :: r) = fast_tokenize r by
              simp [fast_tokenize, sep_is_ws d hdsep]]
            have hlen : r.length ≤ n := by
              have h1 := dropWhile_length_le (fun x => !is_tok_sep x) rest
              rw [hd] at h1
              simp at h1 hs
              omega
            exact ih r hlen

/-- C2 amended: the tokenizer never yields an empty raw token, and it
splits on space, newline and tab only — each yielded token is a maximal
run free of those three bytes with its leading carriage returns
removed (a carriage return is consumed while skipping the gap before a
token but does not terminate a token, so a token may contain one). -/
theorem fast_tokenize_amended (s : Str) :
    fast_tokenize s = cr_tokens_spec s ∧ ∀ t ∈ fast_tokenize s, t ≠ [] := by
  have h := fast_tokenize_eq_cr_aux s.length s le_rfl
  refine ⟨h, fun t ht => ?_⟩
  rw [h] at ht
  have hkeep := List.of_mem_filter ht
  intro h0
  subst h0
  simp at hkeep

/-- Witness for C2's amended theorem at a concrete input containing a
mid-token carriage return. -/
theorem fast_tokenize_amended_witness :
    fast_tokenize [97, 13, 98, 32, 99] = cr_tokens_spec [97, 13, 98, 32, 99] ∧
    ([97, 13, 98] : Str) ≠ [] := by
  refine ⟨(fast_tokenize_amended _).1,
    (fast_tokenize_amended [97, 13, 98, 32, 99]).2 [97, 13, 98] ?_⟩
  rw [show fast_tokenize [97, 13, 98, 32, 99] = [[97, 13, 98], [99]] by
    simp [fast_tokenize, is_ascii_ws, is_tok_sep, List.takeWhile, List.dropWhile]]
  simp

/-- C2 counterexample: on the input `a CR b` the tokenizer yields the
single token `a CR b`, not the two maximal whitespace-free runs `a`,
`b` the claim demands — a carriage return inside a token does not end
it. -/
theorem fast_tokenize_claim_counterexample :
    fast_tokenize [97, 13, 98] = [[97, 13, 98]] ∧
    ws_tokens_spec [97, 13, 98] = [[97], [98]] ∧
    ([[97, 13, 98]] : List Str) ≠ [[97], [98]] := by
  refine ⟨?_, by decide, by decide⟩
  simp [fast_tokenize, is_ascii_ws, is_tok_sep, List.takeWhile, List.dropWhile]

/-!  ## C3 — tokens excluded from the frequency maps -/

/-- C3 amended: the exclusion tests run on the trimmed token — if a raw
token's trimmed form is shorter than 3 bytes, or its trimmed form
begins with `http://` or `https://`, then processing that token leaves
the aggregate (in particular the global and every per-author
word-frequency map) unchanged, regardless of the raw token's length. -/
theorem excluded_token_no_count (s : Stats) (author raw : Str)
    (h : (trim_ascii_punct raw).length < 3
       ∨ (strBytes "http://").isPrefixOf (trim_ascii_punct raw) = true
       ∨ (strBytes "https://").isPrefixOf (trim_ascii_punct raw) = true) :
    process_token s author raw = s := by
  unfold process_token
  by_cases hlen : (trim_ascii_punct raw).length < 3
  · simp [hlen]
  · rcases h with h | h | h
    · exact absurd h hlen
    · simp [hlen, h]
    · simp [hlen, h]

/-- Witness for C3's amended theorem: a short token and a token whose
trimmed form keeps its link prefix are both dropped. -/
theorem excluded_token_no_count_witness :
    process_token Stats.empty (strBytes "A") (strBytes "a,") = Stats.empty ∧
    process_token Stats.empty (strBytes "A") (strBytes "(http://x.co") = Stats.empty :=
  ⟨excluded_token_no_count _ _ _ (Or.inl (by decide)),
   excluded_token_no_count _ _ _ (Or.inr (Or.inl (by decide)))⟩

/-- C3 counterexample: the message text `http://` produces the single
raw token `http://`, which begins with `http://`; the claim says it is
excluded from every frequency map, but folding the message counts it —
trimming strips the trailing `://`, the prefix test runs on the trimmed
form `http` and passes it through, and the global word-frequency map
gains the entry `http`. -/
theorem excluded_token_claim_counterexample :
    fast_tokenize (strBytes "http://") = [strBytes "http://"] ∧
    (strBytes "http://").isPrefixOf (strBytes "http://") = true ∧
    (update_word_stats Stats.empty (strBytes "A")
        (Json.str (strBytes "http://"))).word_freq = [(strBytes "http", 1)] ∧
    [(strBytes "http", 1)] ≠ Stats.empty.word_freq := by
  have e1 : strBytes "http://" = [104, 116, 116, 112, 58, 47, 47] := by decide
  refine ⟨?_, by decide, ?_, by decide⟩
  · rw [e1]
    simp [fast_tokenize, is_ascii_ws, is_tok_sep, List.takeWhile, List.dropWhile]
  · simp only [update_word_stats, text_segments, List.foldl_cons, List.foldl_nil]
    rw [e1]
    simp only [show fast_tokenize [104, 116, 116, 112, 58, 47, 47]
        = [[104, 116, 116, 112, 58, 47, 47]] by
      simp [fast_tokenize, is_ascii_ws, is_tok_sep, List.takeWhile, List.dropWhile]]
    simp only [List.foldl_cons, List.foldl_nil]
    rw [show process_token Stats.empty (strBytes "A") [104, 116, 116, 112, 58, 47, 47]
        = { Stats.empty with
              word_freq := [(strBytes "http", 1)],
              word_freq_per_author := [(strBytes "A", [(strBytes "http", 1)])] } by
      unfold process_token
      decide]

/-!  ## Sorting by count, descending (shared by the spam and author
rankings) -/

lemma insert_desc_perm (x : Str × Nat) (l : List (Str × Nat)) :
    (insert_desc x l).Perm (x :: l) := by
  induction l with
  | nil => simp [insert_desc]
  | cons y ys ih =>
    simp only [insert_desc]
    split
    · exact List.Perm.refl _
    · exact (ih.cons y).trans (List.Perm.swap x y ys)

lemma sort_desc_perm (l : List (Str × Nat)) : (sort_desc l).Perm l := by
  induction l with
  | nil => simp [sort_desc]
  | cons x xs ih =>
    have h1 := insert_desc_perm x (sort_desc xs)
    exact h1.trans (ih.cons x)

lemma insert_desc_pairwise (x : Str × Nat) (l : List (Str × Nat))
    (h : l.Pairwise (fun p q => q.2 ≤ p.2)) :
    (insert_desc x l).Pairwise (fun p q => q.2 ≤ p.2) := by
  induction l with
  | nil => simp [insert_desc]
  | cons y ys ih =>
    rw [List.pairwise_cons] at h
    simp only [insert_desc]
    split
    · rename_i hlt
      refine List.pairwise_cons.mpr ⟨?_, List.pairwise_cons.mpr h⟩
      intro z hz
      rcases List.mem_cons.mp hz with h0 | h0
      · subst h0
        omega
      · have := h.1 z h0
        omega
    · rename_i hge
      refine List.pairwise_cons.mpr ⟨?_, ih h.2⟩
      intro z hz
      rcases List.mem_cons.mp ((insert_desc_perm x ys).mem_iff.mp hz) with h0 | h0
      · subst h0
        omega
      · exact h.1 z h0
  
lemma sort_desc_pairwise (l : List (Str × Nat)) :
    (sort_desc l).Pairwise (fun p q => q.2 ≤ p.2) := by
  induction l with
  | nil => simp [sort_desc]
  | cons x xs ih => exact insert_desc_pairwise x (sort_desc xs) ih

/-!  ## C4 — the spam score and the spammer ranking -/

/-- The score the specification describes: the sum, over an author's
distinct normalized texts, of `max(0, count - 1)`. -/
def spam_score_spec (msgs : CountMap) : ℤ :=
  (msgs.map (fun p => max 0 ((p.2 : ℤ) - 1))).sum

/-- The candidate list the specification describes: exactly the authors
with a positive score, each with its score. -/
def candidates_spec (m : NestedMap) : List (Str × Nat) :=
  m.filterMap (fun e =>
    if 0 < spam_score_spec e.2 then some (e.1, (spam_score_spec e.2).toNat) else none)

lemma spam_extra_acc (msgs : CountMap) : ∀ acc : Nat,
    msgs.foldl (fun a q => if 1 < q.2 then a + (q.2 - 1) else a) acc
      = acc + spam_extra msgs := by
  induction msgs with
  | nil =>
    intro acc
    simp [spam_extra]
  | cons p rest ih =>
    intro acc
    have e : spam_extra (p :: rest)
        = List.foldl (fun a q => if 1 < q.2 then a + (q.2 - 1) else a)
            (if 1 < p.2 then 0 + (p.2 - 1) else 0) rest := by
      simp only [spam_extra, List.foldl_cons]
    rw [List.foldl_cons, e, ih, ih]
    by_cases hc : 1 < p.2 <;> simp [hc] <;> omega

lemma spam_extra_cons (p : Str × Nat) (rest : CountMap) :
    spam_extra (p :: rest) = (if 1 < p.2 then p.2 - 1 else 0) + spam_extra rest := by
  have e : spam_extra (p :: rest)
      = List.foldl (fun a q => if 1 < q.2 then a + (q.2 - 1) else a)
          (if 1 < p.2 then 0 + (p.2 - 1) else 0) rest := by
    simp only [spam_extra, List.foldl_cons]
  rw [e, spam_extra_acc]
  by_cases hc : 1 < p.2 <;> simp [hc]

lemma spam_extra_eq (msgs : CountMap) :
    (spam_extra msgs : ℤ) = spam_score_spec msgs := by
  induction msgs with
  | nil => simp [spam_extra, spam_score_spec]
  | cons p rest ih =>
    have ih2 : ((spam_extra rest : Nat) : ℤ)
        = (rest.map (fun q => max 0 ((q.2 : ℤ) - 1))).sum := by
      simpa [spam_score_spec] using ih
    rw [spam_extra_cons]
    simp only [spam_score_spec, List.map_cons, List.sum_cons]
    push_cast
    rw [ih2]
    by_cases hc : 1 < p.2 <;> simp [hc] <;> omega

/-- C4: the spam score of an author equals the sum over their distinct
normalized texts of `max(0, count - 1)`; the candidates are exactly the
authors with a positive sum; the printed list holds at most ten of
them, in non-increasing score order, each a candidate with a positive
score, and when there are at most ten candidates every candidate is
printed. -/
theorem spam_report_spec (m : NestedMap) :
    spam_scores m = candidates_spec m ∧
    (spam_top m).length ≤ 10 ∧
    (spam_top m).Pairwise (fun p q => q.2 ≤ p.2) ∧
    (∀ p ∈ spam_top m, p ∈ spam_scores m ∧ 0 < p.2) ∧
    ((spam_scores m).length ≤ 10 → ∀ p ∈ spam_scores m, p ∈ spam_top m) := by
  refine ⟨?_, ?_, ?_, ?_, ?_⟩
  · refine List.filterMap_congr (fun e he => ?_)
    have h := spam_extra_eq e.2
    by_cases hpos : 0 < spam_extra e.2
    · rw [if_pos (by omega), if_pos (by omega)]
      have : spam_extra e.2 = (spam_score_spec e.2).toNat := by omega
      rw [this]
    · rw [if_neg hpos, if_neg (by omega)]
  · exact List.length_take_le 10 _
  · exact List.Pairwise.sublist (List.take_sublist 10 _) (sort_desc_pairwise _)
  · intro p hp
    have hmem : p ∈ sort_desc (spam_scores m) :=
      (List.take_sublist 10 _).subset hp
    have hmem2 : p ∈ spam_scores m := (sort_desc_perm _).mem_iff.mp hmem
    refine ⟨hmem2, ?_⟩
    rcases List.mem_filterMap.mp hmem2 with ⟨e, _, hfe⟩
    by_cases hpos : 0 < spam_extra e.2
    · rw [if_pos hpos] at hfe
      cases hfe
      exact hpos
    · rw [if_neg hpos] at hfe
      cases hfe
  · intro hlen p hp
    have hlen2 : (sort_desc (spam_scores m)).length ≤ 10 := by
      rw [(sort_desc_perm (spam_scores m)).length_eq]
      exact hlen
    rw [spam_top, List.take_of_length_le hlen2]
    exact (sort_desc_perm _).mem_iff.mpr hp

/-- Witness for C4 at a concrete spam map: author `A` repeated one text
three times (score 2), author `B` sent one text once (score 0, not a
candidate). -/
theorem spam_report_spec_witness :
    (strBytes "A", 2) ∈ spam_top
        [(strBytes "A", [(strBytes "xxxxx", 3)]),
         (strBytes "B", [(strBytes "yyyyy", 1)])] ∧
    (strBytes "A", 2) ∈ spam_scores
        [(strBytes "A", [(strBytes "xxxxx", 3)]),
         (strBytes "B", [(strBytes "yyyyy", 1)])] := by
  refine ⟨(spam_report_spec _).2.2.2.2 (by decide) _ (by decide), by decide⟩

/-!  ## C8 — author ranking and percentages -/

/-- C8: the report lists every `per_author` entry, in non-increasing
order of message count; the percentage printed for a count is
`count / total_messages * 100`, and a run with zero total messages
reports `0` for every author instead of dividing by zero. -/
theorem author_ranking_spec (s : Stats) :
    (ranked_authors s).Pairwise (fun p q => q.2 ≤ p.2) ∧
    (ranked_authors s).Perm s.per_author ∧
    (0 < s.total_messages → ∀ count : Nat,
        author_percent s count = (count : ℚ) / (s.total_messages : ℚ) * 100) ∧
    (s.total_messages = 0 → ∀ count : Nat, author_percent s count = 0) := by
  refine ⟨sort_desc_pairwise _, sort_desc_perm _, ?_, ?_⟩
  · intro h count
    simp [author_percent, h]
  · intro h count
    simp [author_percent, h]

/-- Witness for C8: a run with four messages prints 25% for a
one-message author; an empty run prints 0%. -/
theorem author_ranking_spec_witness :
    author_percent { Stats.empty with total_messages := 4 } 1 = (1 : ℚ) / 4 * 100 ∧
    author_percent Stats.empty 7 = 0 := by
  constructor
  · exact (author_ranking_spec { Stats.empty with total_messages := 4 }).2.2.1
      (by decide) 1
  · exact (author_ranking_spec Stats.empty).2.2.2 rfl 7


/-!  ## Frame lemmas: the `Stats` fields each step leaves unchanged -/

lemma author_step_frame (n : Str) (s : Stats) :
    (author_step n s).file_messages = s.file_messages ∧
    (author_step n s).sticker_messages = s.sticker_messages ∧
    (author_step n s).hour_hist = s.hour_hist ∧
    (author_step n s).day_hist = s.day_hist ∧
    (author_step n s).poll_messages = s.poll_messages ∧
    (author_step n s).link_messages = s.link_messages ∧
    (author_step n s).word_freq = s.word_freq ∧
    (author_step n s).word_freq_per_author = s.word_freq_per_author ∧
    (author_step n s).spam_map = s.spam_map :=
  ⟨rfl, rfl, rfl, rfl, rfl, rfl, rfl, rfl, rfl⟩

lemma forwarded_step_frame (kvs : List (Str × Json)) (s : Stats) :
    (forwarded_step kvs s).file_messages = s.file_messages ∧
    (forwarded_step kvs s).sticker_messages = s.sticker_messages ∧
    (forwarded_step kvs s).hour_hist = s.hour_hist ∧
    (forwarded_step kvs s).day_hist = s.day_hist ∧
    (forwarded_step kvs s).poll_messages = s.poll_messages ∧
    (forwarded_step kvs s).link_messages = s.link_messages ∧
    (forwarded_step kvs s).word_freq = s.word_freq ∧
    (forwarded_step kvs s).word_freq_per_author = s.word_freq_per_author ∧
    (forwarded_step kvs s).spam_map = s.spam_map := by
  unfold forwarded_step
  split <;> exact ⟨rfl, rfl, rfl, rfl, rfl, rfl, rfl, rfl, rfl⟩

lemma date_step_frame (v : Bool) (kvs : List (Str × Json)) (s : Stats) :
    (date_step v kvs s).file_messages = s.file_messages ∧
    (date_step v kvs s).sticker_messages = s.sticker_messages ∧
    (date_step v kvs s).poll_messages = s.poll_messages ∧
    (date_step v kvs s).link_messages = s.link_messages ∧
    (date_step v kvs s).word_freq = s.word_freq ∧
    (date_step v kvs s).word_freq_per_author = s.word_freq_per_author ∧
    (date_step v kvs s).spam_map = s.spam_map ∧
    (date_step v kvs s).per_author = s.per_author ∧
    (date_step v kvs s).total_messages = s.total_messages := by
  simp only [date_step]
  repeat' split
  all_goals exact ⟨rfl, rfl, rfl, rfl, rfl, rfl, rfl, rfl, rfl⟩

/-- Fields no media block touches: everything except its own counter
and the any-media counter. -/
lemma photo_step_frame (kvs : List (Str × Json)) (s : Stats) :
    (photo_step kvs s).file_messages = s.file_messages ∧
    (photo_step kvs s).sticker_messages = s.sticker_messages ∧
    (photo_step kvs s).poll_messages = s.poll_messages ∧
    (photo_step kvs s).hour_hist = s.hour_hist ∧
    (photo_step kvs s).day_hist = s.day_hist ∧
    (photo_step kvs s).link_messages = s.link_messages ∧
    (photo_step kvs s).word_freq = s.word_freq ∧
    (photo_step kvs s).word_freq_per_author = s.word_freq_per_author ∧
    (photo_step kvs s).spam_map = s.spam_map := by
  unfold photo_step
  split <;> exact ⟨rfl, rfl, rfl, rfl, rfl, rfl, rfl, rfl, rfl⟩

lemma media_type_step_frame (kvs : List (Str × Json)) (s : Stats) :
    (media_type_step kvs s).file_messages = s.file_messages ∧
    (media_type_step kvs s).poll_messages = s.poll_messages ∧
    (media_type_step kvs s).hour_hist = s.hour_hist ∧
    (media_type_step kvs s).day_hist = s.day_hist ∧
    (media_type_step kvs s).link_messages = s.link_messages ∧
    (media_type_step kvs s).word_freq = s.word_freq ∧
    (media_type_step kvs s).word_freq_per_author = s.word_freq_per_author ∧
    (media_type_step kvs s).spam_map = s.spam_map := by
  unfold media_type_step
  repeat' split
  all_goals exact ⟨rfl, rfl, rfl, rfl, rfl, rfl, rfl, rfl⟩

lemma file_step_frame (kvs : List (Str × Json)) (s : Stats) :
    (file_step kvs s).sticker_messages = s.sticker_messages ∧
    (file_step kvs s).poll_messages = s.poll_messages ∧
    (file_step kvs s).hour_hist = s.hour_hist ∧
    (file_step kvs s).day_hist = s.day_hist ∧
    (file_step kvs s).link_messages = s.link_messages ∧
    (file_step kvs s).word_freq = s.word_freq ∧
    (file_step kvs s).word_freq_per_author = s.word_freq_per_author ∧
    (file_step kvs s).spam_map = s.spam_map := by
  unfold file_step
  split <;> exact ⟨rfl, rfl, rfl, rfl, rfl, rfl, rfl, rfl⟩

lemma poll_step_frame (kvs : List (Str × Json)) (s : Stats) :
    (poll_step kvs s).file_messages = s.file_messages ∧
    (poll_step kvs s).sticker_messages = s.sticker_messages ∧
    (poll_step kvs s).hour_hist = s.hour_hist ∧
    (poll_step kvs s).day_hist = s.day_hist ∧
    (poll_step kvs s).link_messages = s.link_messages ∧
    (poll_step kvs s).word_freq = s.word_freq ∧
    (poll_step kvs s).word_freq_per_author = s.word_freq_per_author ∧
    (poll_step kvs s).spam_map = s.spam_map := by
  unfold poll_step
  split <;> exact ⟨rfl, rfl, rfl, rfl, rfl, rfl, rfl, rfl⟩

lemma media_step_frame (kvs : List (Str × Json)) (s : Stats) :
    (media_step kvs s).hour_hist = s.hour_hist ∧
    (media_step kvs s).day_hist = s.day_hist ∧
    (media_step kvs s).link_messages = s.link_messages ∧
    (media_step kvs s).word_freq = s.word_freq ∧
    (media_step kvs s).word_freq_per_author = s.word_freq_per_author ∧
    (media_step kvs s).spam_map = s.spam_map := by
  have hp := photo_step_frame kvs s
  have hm := media_type_step_frame kvs (photo_step kvs s)
  have hf := file_step_frame kvs (media_type_step kvs (photo_step kvs s))
  have hq := poll_step_frame kvs
    (file_step kvs (media_type_step kvs (photo_step kvs s)))
  simp only [media_step]
  split
  all_goals exact ⟨by simp_all, by simp_all, by simp_all, by simp_all,
    by simp_all, by simp_all⟩

lemma process_token_frame (s : Stats) (a r : Str) :
    (process_token s a r).file_messages = s.file_messages ∧
    (process_token s a r).sticker_messages = s.sticker_messages ∧
    (process_token s a r).hour_hist = s.hour_hist ∧
    (process_token s a r).day_hist = s.day_hist ∧
    (process_token s a r).poll_messages = s.poll_messages := by
  simp only [process_token]
  repeat' split
  all_goals exact ⟨rfl, rfl, rfl, rfl, rfl⟩

lemma track_spam_frame (s : Stats) (a : Str) (tv : Json) :
    (track_spam s a tv).file_messages = s.file_messages ∧
    (track_spam s a tv).sticker_messages = s.sticker_messages ∧
    (track_spam s a tv).hour_hist = s.hour_hist ∧
    (track_spam s a tv).day_hist = s.day_hist ∧
    (track_spam s a tv).poll_messages = s.poll_messages ∧
    (track_spam s a tv).word_freq = s.word_freq ∧
    (track_spam s a tv).word_freq_per_author = s.word_freq_per_author := by
  simp only [track_spam]
  repeat' split
  all_goals exact ⟨rfl, rfl, rfl, rfl, rfl, rfl, rfl⟩

lemma foldl_pres {α β : Type} (f : Stats → α → Stats) (g : Stats → β)
    (hf : ∀ s x, g (f s x) = g s) :
    ∀ (l : List α) (s : Stats), g (l.foldl f s) = g s := by
  intro l
  induction l with
  | nil => intro s; rfl
  | cons x xs ih =>
    intro s
    rw [List.foldl_cons, ih, hf]

lemma update_word_stats_pres {β : Type} (g : Stats → β)
    (h1 : ∀ s a r, g (process_token s a r) = g s) (a : Str) (tv : Json) (s : Stats) :
    g (update_word_stats s a tv) = g s := by
  unfold update_word_stats
  exact foldl_pres _ g (fun s seg => foldl_pres _ g (fun s raw => h1 s a raw) _ s) _ s

lemma text_step_pres {β : Type} (g : Stats → β)
    (h1 : ∀ s a r, g (process_token s a r) = g s)
    (h2 : ∀ s a tv, g (track_spam s a tv) = g s)
    (h3 : ∀ s, g { s with link_messages := s.link_messages + 1 } = g s)
    (v : Bool) (n : Str) (kvs : List (Str × Json)) (s : Stats) :
    g (text_step v n kvs s).1 = g s := by
  simp only [text_step]
  split
  · split
    · split
      · dsimp only
        rw [h2, update_word_stats_pres g h1]
        split
        · exact h3 s
        · rfl
      · rfl
    · split
      · dsimp only
        split
        · exact h3 s
        · rfl
      · rfl
  · rfl

lemma file_step_file (kvs : List (Str × Json)) (s : Stats) :
    (file_step kvs s).file_messages
      = s.file_messages +
        (if containsKey kvs (strBytes "file")
            && !containsKey kvs (strBytes "media_type") then 1 else 0) := by
  unfold file_step
  split <;> rename_i h <;> simp [h]

lemma media_type_step_sticker (kvs : List (Str × Json)) (s : Stats) :
    (media_type_step kvs s).sticker_messages
      = s.sticker_messages +
        (if get_str_field kvs (strBytes "media_type")
            = some (strBytes "sticker") then 1 else 0) := by
  have d1 : strBytes "voice_message" ≠ strBytes "sticker" := by decide
  have d2 : strBytes "video_file" ≠ strBytes "sticker" := by decide
  have d3 : strBytes "audio_file" ≠ strBytes "sticker" := by decide
  have d4 : strBytes "animation" ≠ strBytes "sticker" := by decide
  unfold media_type_step get_str_field
  repeat' split
  all_goals simp_all

lemma poll_step_poll (kvs : List (Str × Json)) (s : Stats) :
    (poll_step kvs s).poll_messages
      = s.poll_messages + (if containsKey kvs (strBytes "poll") then 1 else 0) := by
  unfold poll_step
  split <;> rename_i h <;> simp [h]

lemma media_step_any_frame (kvs : List (Str × Json)) (t : Stats) :
    (media_step kvs t).file_messages
        = (poll_step kvs (file_step kvs (media_type_step kvs (photo_step kvs t)))).file_messages ∧
    (media_step kvs t).sticker_messages
        = (poll_step kvs (file_step kvs (media_type_step kvs (photo_step kvs t)))).sticker_messages ∧
    (media_step kvs t).poll_messages
        = (poll_step kvs (file_step kvs (media_type_step kvs (photo_step kvs t)))).poll_messages := by
  simp only [media_step]
  split <;> exact ⟨rfl, rfl, rfl⟩

/-- The text block's file/sticker/poll/histogram fields never change. -/
lemma text_step_frame (v : Bool) (n : Str) (kvs : List (Str × Json)) (s : Stats) :
    (text_step v n kvs s).1.file_messages = s.file_messages ∧
    (text_step v n kvs s).1.sticker_messages = s.sticker_messages ∧
    (text_step v n kvs s).1.hour_hist = s.hour_hist ∧
    (text_step v n kvs s).1.day_hist = s.day_hist ∧
    (text_step v n kvs s).1.poll_messages = s.poll_messages := by
  refine ⟨?_, ?_, ?_, ?_, ?_⟩
  · exact text_step_pres (fun s => s.file_messages)
      (fun s a r => (process_token_frame s a r).1)
      (fun s a tv => (track_spam_frame s a tv).1) (fun s => rfl) v n kvs s
  · exact text_step_pres (fun s => s.sticker_messages)
      (fun s a r => (process_token_frame s a r).2.1)
      (fun s a tv => (track_spam_frame s a tv).2.1) (fun s => rfl) v n kvs s
  · exact text_step_pres (fun s => s.hour_hist)
      (fun s a r => (process_token_frame s a r).2.2.1)
      (fun s a tv => (track_spam_frame s a tv).2.2.1) (fun s => rfl) v n kvs s
  · exact text_step_pres (fun s => s.day_hist)
      (fun s a r => (process_token_frame s a r).2.2.2.1)
      (fun s a tv => (track_spam_frame s a tv).2.2.2.1) (fun s => rfl) v n kvs s
  · exact text_step_pres (fun s => s.poll_messages)
      (fun s a r => (process_token_frame s a r).2.2.2.2)
      (fun s a tv => (track_spam_frame s a tv).2.2.2.2.1) (fun s => rfl) v n kvs s

/-- The text block does nothing when the text field is absent or its
derived emptiness predicate holds. -/
lemma text_step_empty (v : Bool) (n : Str) (kvs : List (Str × Json)) (s : Stats)
    (h : getField kvs (strBytes "text") = none
       ∨ ∃ tv, getField kvs (strBytes "text") = some tv ∧ text_is_empty tv = true) :
    text_step v n kvs s = (s, [], false) := by
  unfold text_step
  rcases h with h | ⟨tv, h, hemp⟩
  · rw [h]
  · rw [h]
    cases v <;> simp [hemp]

/-!  ## C5 — the bare-file counter -/

/-- C5: for every qualifying message, the bare-file counter is
incremented exactly when a `file` marker is present and no `media_type`
key is present at all; independently, the sticker counter is
incremented exactly when `media_type` is the string `sticker` — so a
message with both `file` and `media_type:"sticker"` bumps the sticker
counter and leaves the file counter unchanged. -/
theorem bare_file_counter_spec (verbose : Bool) (s : Stats)
    (kvs : List (Str × Json)) (hq : is_message kvs = true) :
    ((process_message verbose s (Json.obj kvs)).1.file_messages
      = s.file_messages +
        (if containsKey kvs (strBytes "file")
            && !containsKey kvs (strBytes "media_type") then 1 else 0)) ∧
    ((process_message verbose s (Json.obj kvs)).1.sticker_messages
      = s.sticker_messages +
        (if get_str_field kvs (strBytes "media_type") = some (strBytes "sticker")
         then 1 else 0)) := by
  simp only [process_message, hq, if_true]
  constructor
  · rw [(media_step_any_frame kvs _).1, (poll_step_frame kvs _).1, file_step_file,
        (media_type_step_frame kvs _).1, (photo_step_frame kvs _).1,
        (text_step_frame verbose _ kvs _).1, (date_step_frame verbose kvs _).1,
        (forwarded_step_frame kvs _).1, (author_step_frame _ s).1]
  · rw [(media_step_any_frame kvs _).2.1, (poll_step_frame kvs _).2.1,
        (file_step_frame kvs _).1, media_type_step_sticker,
        (photo_step_frame kvs _).2.1,
        (text_step_frame verbose _ kvs _).2.1, (date_step_frame verbose kvs _).2.1,
        (forwarded_step_frame kvs _).2.1, (author_step_frame _ s).2.1]

/-- Witness for C5: the spec's scenario — a message with `file` only
counts one bare file; adding `media_type:"sticker"` moves the count to
the sticker counter. -/
theorem bare_file_counter_spec_witness :
    (process_message false Stats.empty (Json.obj
        [(strBytes "type", Json.str (strBytes "message")),
         (strBytes "file", Json.other)])).1.file_messages = 1 ∧
    (process_message false Stats.empty (Json.obj
        [(strBytes "type", Json.str (strBytes "message")),
         (strBytes "file", Json.other),
         (strBytes "media_type", Json.str (strBytes "sticker"))])).1.file_messages = 0 ∧
    (process_message false Stats.empty (Json.obj
        [(strBytes "type", Json.str (strBytes "message")),
         (strBytes "file", Json.other),
         (strBytes "media_type", Json.str (strBytes "sticker"))])).1.sticker_messages = 1 := by
  refine ⟨?_, ?_, ?_⟩
  · rw [(bare_file_counter_spec false Stats.empty _ (by decide)).1]
    decide
  · rw [(bare_file_counter_spec false Stats.empty _ (by decide)).1]
    decide
  · rw [(bare_file_counter_spec false Stats.empty _ (by decide)).2]
    decide

/-!  ## C6 — the date histograms -/

lemma days_in_month_le (y : Int) (m : Nat) : days_in_month y m ≤ 31 := by
  unfold days_in_month
  repeat' split
  all_goals omega

lemma parse_date_bounds (d : Str) (dt : DateT) (h : parse_date d = some dt) :
    dt.hour ≤ 23 ∧ 1 ≤ dt.day ∧ dt.day ≤ 31 := by
  unfold parse_date at h
  split at h
  · exact absurd h (by simp)
  · rename_i y mo dd hh mi se rest heq
    split at h
    · rename_i hvalid
      injection h with h
      subst h
      simp only [Bool.and_eq_true, decide_eq_true_eq] at hvalid
      have hm := days_in_month_le y mo
      refine ⟨?_, ?_, ?_⟩ <;> simp only [] <;> omega
    · exact absurd h (by simp)

/-- The date block's effect on the histograms depends only on the
histograms themselves. -/
lemma date_step_hists_congr (v : Bool) (kvs : List (Str × Json)) (s1 s2 : Stats)
    (hh : s1.hour_hist = s2.hour_hist) (hd : s1.day_hist = s2.day_hist) :
    (date_step v kvs s1).hour_hist = (date_step v kvs s2).hour_hist ∧
    (date_step v kvs s1).day_hist = (date_step v kvs s2).day_hist := by
  simp only [date_step]
  repeat' split
  all_goals simp_all

/-- For a qualifying message, the histograms of the fold's result are
those the date block produces from the incoming state. -/
lemma process_message_hists (v : Bool) (s : Stats) (kvs : List (Str × Json))
    (hq : is_message kvs = true) :
    (process_message v s (Json.obj kvs)).1.hour_hist = (date_step v kvs s).hour_hist ∧
    (process_message v s (Json.obj kvs)).1.day_hist = (date_step v kvs s).day_hist := by
  simp only [process_message, hq, if_true]
  constructor
  · rw [(media_step_frame kvs _).1, (text_step_frame v _ kvs _).2.2.1]
    exact (date_step_hists_congr v kvs _ s
      (by rw [(forwarded_step_frame kvs _).2.2.1, (author_step_frame _ s).2.2.1])
      (by rw [(forwarded_step_frame kvs _).2.2.2.1,
              (author_step_frame _ s).2.2.2.1])).1
  · rw [(media_step_frame kvs _).2.1, (text_step_frame v _ kvs _).2.2.2.1]
    exact (date_step_hists_congr v kvs _ s
      (by rw [(forwarded_step_frame kvs _).2.2.1, (author_step_frame _ s).2.2.1])
      (by rw [(forwarded_step_frame kvs _).2.2.2.1,
              (author_step_frame _ s).2.2.2.1])).2

/-- C6: for a qualifying message, the two activity histograms change
only when extended statistics are on and the `date` field is a string
parsing against the fixed `YYYY-MM-DDTHH:MM:SS` format; then the
parsed hour (0–23) and day-of-month (1–31) buckets are each incremented
by one.  A disabled switch, a missing or non-string date, or an
unparseable date leaves both histograms unchanged (and the fold, being
a total function, never fails). -/
theorem date_histogram_spec (verbose : Bool) (s : Stats)
    (kvs : List (Str × Json)) (hq : is_message kvs = true)
    (hlen : s.day_hist.length = 32) :
    (∀ d dt, verbose = true →
        getField kvs (strBytes "date") = some (Json.str d) →
        parse_date d = some dt →
        ((process_message verbose s (Json.obj kvs)).1.hour_hist
            = s.hour_hist.set dt.hour (s.hour_hist.getD dt.hour 0 + 1) ∧
         (process_message verbose s (Json.obj kvs)).1.day_hist
            = s.day_hist.set dt.day (s.day_hist.getD dt.day 0 + 1) ∧
         dt.hour ≤ 23 ∧ 1 ≤ dt.day ∧ dt.day ≤ 31)) ∧
    (verbose = false →
        (process_message verbose s (Json.obj kvs)).1.hour_hist = s.hour_hist ∧
        (process_message verbose s (Json.obj kvs)).1.day_hist = s.day_hist) ∧
    (getField kvs (strBytes "date") = none →
        (process_message verbose s (Json.obj kvs)).1.hour_hist = s.hour_hist ∧
        (process_message verbose s (Json.obj kvs)).1.day_hist = s.day_hist) ∧
    (∀ jv, getField kvs (strBytes "date") = some jv →
        (∀ d, jv = Json.str d → parse_date d = none) →
        (process_message verbose s (Json.obj kvs)).1.hour_hist = s.hour_hist ∧
        (process_message verbose s (Json.obj kvs)).1.day_hist = s.day_hist) := by
  obtain ⟨hH, hD⟩ := process_message_hists verbose s kvs hq
  refine ⟨?_, ?_, ?_, ?_⟩
  · intro d dt hv hd hp
    obtain ⟨hb1, hb2, hb3⟩ := parse_date_bounds d dt hp
    subst hv
    rw [hH, hD]
    have h24 : dt.hour < 24 := by omega
    have h32 : dt.day < s.day_hist.length := by omega
    simp only [date_step, hd, hp, if_true]
    refine ⟨?_, ?_, hb1, hb2, hb3⟩
    · simp [h24, h32]
    · simp [h24, h32]
  · intro hv
    subst hv
    rw [hH, hD]
    simp [date_step]
  · intro hd
    rw [hH, hD]
    cases verbose <;> simp [date_step, hd]
  · intro jv hjv hnp
    rw [hH, hD]
    cases verbose with
    | false => simp [date_step]
    | true =>
      cases jv with
      | str d => simp [date_step, hjv, hnp d rfl]
      | arr es => simp [date_step, hjv]
      | obj kv => simp [date_step, hjv]
      | other => simp [date_step, hjv]

/-- Witness for C6: a valid date bumps hour bucket 10 and day bucket 5;
with extended statistics off the histograms stay put. -/
theorem date_histogram_spec_witness :
    ((process_message true Stats.empty (Json.obj
        [(strBytes "type", Json.str (strBytes "message")),
         (strBytes "date", Json.str (strBytes "2024-01-05T10:00:00"))])).1.hour_hist
      = Stats.empty.hour_hist.set 10 (Stats.empty.hour_hist.getD 10 0 + 1)) ∧
    ((process_message false Stats.empty (Json.obj
        [(strBytes "type", Json.str (strBytes "message")),
         (strBytes "date", Json.str (strBytes "2024-01-05T10:00:00"))])).1.hour_hist
      = Stats.empty.hour_hist) := by
  constructor
  · exact ((date_histogram_spec true Stats.empty
      [(strBytes "type", Json.str (strBytes "message")),
       (strBytes "date", Json.str (strBytes "2024-01-05T10:00:00"))]
      (by decide) (by decide)).1
      (strBytes "2024-01-05T10:00:00") ⟨2024, 1, 5, 10, 0, 0⟩ rfl rfl (by decide)).1
  · exact ((date_histogram_spec false Stats.empty
      [(strBytes "type", Json.str (strBytes "message")),
       (strBytes "date", Json.str (strBytes "2024-01-05T10:00:00"))]
      (by decide) (by decide)).2.1 rfl).1

/-!  ## C7 — the poll fallback -/

/-- The author display name (src/main.rs:177). -/
def msg_author (kvs : List (Str × Json)) : Str :=
  (get_str_field kvs (strBytes "from")).getD (strBytes "Unknown")

/-- The author identifier (src/main.rs:178). -/
def msg_from_id (kvs : List (Str × Json)) : Str :=
  (get_str_field kvs (strBytes "from_id")).getD (strBytes "no_id")

/-- The fold for a qualifying message, written as the composition of
its steps. -/
lemma process_message_decomp (v : Bool) (s : Stats) (kvs : List (Str × Json))
    (hq : is_message kvs = true) :
    process_message v s (Json.obj kvs)
      = ((media_step kvs (text_step v (msg_author kvs) kvs
            (date_step v kvs (forwarded_step kvs (author_step (msg_author kvs) s)))).1),
         some (msg_author kvs ++ strBytes "(" ++ msg_from_id kvs ++ strBytes "): "
           ++ (if (text_step v (msg_author kvs) kvs
                  (date_step v kvs (forwarded_step kvs (author_step (msg_author kvs) s)))).2.2
               then (text_step v (msg_author kvs) kvs
                  (date_step v kvs (forwarded_step kvs (author_step (msg_author kvs) s)))).2.1
               else poll_fallback kvs)
           ++ strBytes "\n")) := by
  simp only [process_message, hq, if_true, msg_author, msg_from_id]

/-- C7: a qualifying message whose text field is absent (or empty under
the derived predicate) and that carries a poll with question `q` makes
the transcript line render `[опрос: q]` in place of the text portion
and bumps the poll counter; the text-derived statistics — the link
counter, the global and per-author word-frequency maps and the spam
map — are unchanged by folding it. -/
theorem poll_fallback_spec (verbose : Bool) (s : Stats)
    (kvs : List (Str × Json)) (hq : is_message kvs = true)
    (htext : getField kvs (strBytes "text") = none
       ∨ ∃ tv, getField kvs (strBytes "text") = some tv ∧ text_is_empty tv = true)
    (pv : Json) (q : Str)
    (hp : getField kvs (strBytes "poll") = some pv)
    (hq2 : get_poll_question pv = some q) :
    (process_message verbose s (Json.obj kvs)).2
      = some (msg_author kvs ++ strBytes "(" ++ msg_from_id kvs ++ strBytes "): "
          ++ (strBytes "[опрос: " ++ q ++ strBytes "]") ++ strBytes "\n") ∧
    (process_message verbose s (Json.obj kvs)).1.poll_messages = s.poll_messages + 1 ∧
    (process_message verbose s (Json.obj kvs)).1.link_messages = s.link_messages ∧
    (process_message verbose s (Json.obj kvs)).1.word_freq = s.word_freq ∧
    (process_message verbose s (Json.obj kvs)).1.word_freq_per_author
        = s.word_freq_per_author ∧
    (process_message verbose s (Json.obj kvs)).1.spam_map = s.spam_map := by
  have hdec := process_message_decomp verbose s kvs hq
  have he := text_step_empty verbose (msg_author kvs) kvs
      (date_step verbose kvs (forwarded_step kvs (author_step (msg_author kvs) s))) htext
  rw [hdec, he]
  dsimp only
  refine ⟨?_, ?_, ?_, ?_, ?_, ?_⟩
  · simp [poll_fallback, hp, hq2]
  · rw [(media_step_any_frame kvs _).2.2, poll_step_poll, (file_step_frame kvs _).2.1,
        (media_type_step_frame kvs _).2.1, (photo_step_frame kvs _).2.2.1,
        (date_step_frame verbose kvs _).2.2.1,
        (forwarded_step_frame kvs _).2.2.2.2.1, (author_step_frame _ s).2.2.2.2.1]
    have hck : containsKey kvs (strBytes "poll") = true := by
      simp [containsKey, hp]
    simp [hck]
  · rw [(media_step_frame kvs _).2.2.1, (date_step_frame verbose kvs _).2.2.2.1,
        (forwarded_step_frame kvs _).2.2.2.2.2.1,
        (author_step_frame _ s).2.2.2.2.2.1]
  · rw [(media_step_frame kvs _).2.2.2.1, (date_step_frame verbose kvs _).2.2.2.2.1,
        (forwarded_step_frame kvs _).2.2.2.2.2.2.1,
        (author_step_frame _ s).2.2.2.2.2.2.1]
  · rw [(media_step_frame kvs _).2.2.2.2.1, (date_step_frame verbose kvs _).2.2.2.2.2.1,
        (forwarded_step_frame kvs _).2.2.2.2.2.2.2.1,
        (author_step_frame _ s).2.2.2.2.2.2.2.1]
  · rw [(media_step_frame kvs _).2.2.2.2.2, (date_step_frame verbose kvs _).2.2.2.2.2.2.1,
        (forwarded_step_frame kvs _).2.2.2.2.2.2.2.2,
        (author_step_frame _ s).2.2.2.2.2.2.2.2]

/-- Witness for C7: the spec's scenario — no text, a poll with question
`Q?`. -/
theorem poll_fallback_spec_witness :
    (process_message true Stats.empty (Json.obj
        [(strBytes "type", Json.str (strBytes "message")),
         (strBytes "poll", Json.obj
            [(strBytes "question", Json.str (strBytes "Q?"))])])).2
      = some (strBytes "Unknown(no_id): [опрос: Q?]\n") ∧
    (process_message true Stats.empty (Json.obj
        [(strBytes "type", Json.str (strBytes "message")),
         (strBytes "poll", Json.obj
            [(strBytes "question", Json.str (strBytes "Q?"))])])).1.poll_messages = 1 ∧
    (process_message true Stats.empty (Json.obj
        [(strBytes "type", Json.str (strBytes "message")),
         (strBytes "poll", Json.obj
            [(strBytes "question", Json.str (strBytes "Q?"))])])).1.word_freq = [] := by
  have h := poll_fallback_spec true Stats.empty
    [(strBytes "type", Json.str (strBytes "message")),
     (strBytes "poll", Json.obj [(strBytes "question", Json.str (strBytes "Q?"))])]
    (by decide) (Or.inl rfl)
    (Json.obj [(strBytes "question", Json.str (strBytes "Q?"))]) (strBytes "Q?")
    rfl rfl
  refine ⟨?_, ?_, ?_⟩
  · rw [h.1]
    decide
  · rw [h.2.1]
    rfl
  · rw [h.2.2.2.1]
    rfl

/-!  ## C10 — the global and per-author word maps stay in lockstep -/

/-- The lockstep invariant: every token's global count is the sum of
its per-author counts (absent entries count as zero). -/
def word_inv (s : Stats) : Prop :=
  ∀ k : Str, lookupD s.word_freq k
    = (s.word_freq_per_author.map (fun e => lookupD e.2 k)).sum

lemma lookupD_bump (m : CountMap) (k k' : Str) :
    lookupD (bump m k) k' = lookupD m k' + (if k = k' then 1 else 0) := by
  induction m with
  | nil =>
    simp only [bump, lookupD]
    by_cases h : k = k' <;> simp [h, lookupD]
  | cons p rest ih =>
    obtain ⟨a, c⟩ := p
    simp only [bump]
    by_cases hak : a = k
    · subst hak
      by_cases hk' : a = k' <;> simp [lookupD, hk'] <;> simp_all
    · simp only [if_neg hak, lookupD]
      by_cases hk' : a = k' <;> simp [hk', ih]
      subst hk'
      intro h0
      exact absurd h0.symm hak

lemma sum_bump_nested (m : NestedMap) (a k k' : Str) :
    ((bump_nested m a k).map (fun e => lookupD e.2 k')).sum
      = (m.map (fun e => lookupD e.2 k')).sum + (if k = k' then 1 else 0) := by
  induction m with
  | nil => simp [bump_nested, lookupD_bump, lookupD]
  | cons p rest ih =>
    obtain ⟨b, mm⟩ := p
    simp only [bump_nested]
    by_cases hba : b = a
    · simp [hba, lookupD_bump]
      omega
    · simp [hba, ih]
      omega

lemma word_inv_congr (s t : Stats) (h1 : t.word_freq = s.word_freq)
    (h2 : t.word_freq_per_author = s.word_freq_per_author)
    (h : word_inv s) : word_inv t := by
  intro k
  rw [h1, h2]
  exact h k

lemma process_token_word_inv (s : Stats) (a r : Str) (h : word_inv s) :
    word_inv (process_token s a r) := by
  simp only [process_token]
  repeat' split
  any_goals exact h
  intro k
  simp only []
  rw [lookupD_bump, sum_bump_nested, h k]

lemma foldl_inv {α : Type} (f : Stats → α → Stats) (P : Stats → Prop)
    (hf : ∀ s x, P s → P (f s x)) :
    ∀ (l : List α) (s : Stats), P s → P (l.foldl f s) := by
  intro l
  induction l with
  | nil => exact fun s h => h
  | cons x xs ih =>
    intro s h
    rw [List.foldl_cons]
    exact ih (f s x) (hf s x h)

lemma update_word_stats_word_inv (s : Stats) (a : Str) (tv : Json)
    (h : word_inv s) : word_inv (update_word_stats s a tv) := by
  unfold update_word_stats
  refine foldl_inv _ word_inv (fun s seg h => ?_) _ s h
  exact foldl_inv _ word_inv (fun s raw h => process_token_word_inv s a raw h) _ s h

lemma text_step_word_inv (v : Bool) (n : Str) (kvs : List (Str × Json)) (s : Stats)
    (h : word_inv s) : word_inv (text_step v n kvs s).1 := by
  simp only [text_step]
  split
  · rename_i tv _
    split
    · split
      · dsimp only
        refine word_inv_congr _ _
          ((track_spam_frame _ n tv).2.2.2.2.2.1) ((track_spam_frame _ n tv).2.2.2.2.2.2)
          (update_word_stats_word_inv _ n tv ?_)
        split
        · exact word_inv_congr _ _ rfl rfl h
        · exact h
      · exact h
    · split
      · dsimp only
        split
        · exact word_inv_congr _ _ rfl rfl h
        · exact h
      · exact h
  · exact h

lemma process_message_word_inv (v : Bool) (s : Stats) (m : Json)
    (h : word_inv s) : word_inv (process_message v s m).1 := by
  cases m with
  | obj kvs =>
    by_cases hq : is_message kvs = true
    · rw [process_message_decomp v s kvs hq]
      dsimp only
      refine word_inv_congr _ _ ((media_step_frame kvs _).2.2.2.1)
        ((media_step_frame kvs _).2.2.2.2.1) ?_
      refine text_step_word_inv v _ kvs _ ?_
      refine word_inv_congr _ _ ((date_step_frame v kvs _).2.2.2.2.1)
        ((date_step_frame v kvs _).2.2.2.2.2.1) ?_
      refine word_inv_congr _ _ ((forwarded_step_frame kvs _).2.2.2.2.2.2.1)
        ((forwarded_step_frame kvs _).2.2.2.2.2.2.2.1) ?_
      exact word_inv_congr _ _ ((author_step_frame _ s).2.2.2.2.2.2.1)
        ((author_step_frame _ s).2.2.2.2.2.2.2.1) h
    · simp only [process_message]
      rw [if_neg hq]
      exact h
  | str t => exact h
  | arr es => exact h
  | other => exact h

/-- C10: after folding any message sequence from the empty aggregate,
every token's count in the global word-frequency map equals the sum of
that token's counts over all per-author word-frequency maps — the two
maps never diverge. -/
theorem word_freq_lockstep (verbose : Bool) (msgs : List Json) :
    word_inv (run_messages verbose msgs) := by
  unfold run_messages
  refine foldl_inv _ word_inv
    (fun s m h => process_message_word_inv verbose s m h) msgs Stats.empty ?_
  intro k
  rfl
